import Mathlib

/-!
Shallow embedding of `src/pnwtl/extapp.cpp` (Programmers Notepad `App`
facade): event-sink registry, extension loading, command routing,
user-data clearing and shutdown ordering.

Conventions of the embedding:
* `tstring` is modelled as `List Char`.
* `std::basic_string::operator[]` at position `size()` returns the null
  character (C++11 semantics), modelled by `strIndex` with default
  `Char.ofNat 0`.
* `std::basic_string::find` returning `npos` is modelled by `Option Nat`
  (the source compares the result with `-1`, which equals `npos` after
  the `size_t` conversion).
* Event sinks (`extensions::IAppEventSinkPtr`) are shared pointers,
  compared by identity; they are modelled by opaque identifiers (`Nat`).
* External effects (logging, `Script::Run`, `UNEXPECTED`,
  `DeleteDirectory`, `OPTIONS->Clear`, ...) are modelled as explicit
  events or traces returned by the embedded functions.
-/

namespace PN

/-- `tstring`: a character string. -/
abbrev tstring := List Char

/-- `std::basic_string::operator[]`: character at index `i`; reading at
`i = size()` yields the null character (defined behaviour in C++11). -/
def strIndex (s : tstring) (i : Nat) : Char :=
  s.getD i (Char.ofNat 0)

/-- `std::basic_string::find(c)`: index of the first occurrence of `c`,
`none` standing for `npos`. -/
def strFind : tstring → Char → Option Nat
  | [], _ => none
  | x :: xs, c => if x = c then some 0 else (strFind xs c).map (· + 1)

/-- The `Script` execution unit: `Script s(group, command)` from
`App::RunExtensionCommand`; `group` is the first constructor argument
(always `""` there) and `commandStr` the second (the full command). -/
structure Script where
  group : tstring
  commandStr : tstring
deriving DecidableEq

/-- Observable outcome of `App::RunExtensionCommand`. -/
inductive CommandAction where
  /-- The function returned without doing anything. -/
  | noop : CommandAction
  /-- `UNEXPECTED(msg)` was raised. -/
  | unexpected (msg : tstring) : CommandAction
  /-- A `Script` was constructed and `Run()` on it. -/
  | runScript (s : Script) : CommandAction
deriving DecidableEq

/-- `App::RunExtensionCommand` (extapp.cpp lines 174-192): split the
command on the first `:`; no colon ⇒ plain return; runner id `"ext"` ⇒
`UNEXPECTED("Not Yet Implemented")`; otherwise `Script s("", command);
s.Run()`. -/
def RunExtensionCommand (command : tstring) : CommandAction :=
  let str := command
  match strFind str ':' with
  | none => CommandAction.noop
  | some rindex =>
    let runner_id := str.take rindex
    if runner_id = ("ext").toList then
      CommandAction.unexpected (("Not Yet Implemented").toList)
    else
      CommandAction.runScript { group := [], commandStr := command }

/-! ### Helper lemmas about `strFind` -/

theorem strFind_eq_none_of_not_mem {s : tstring} {c : Char} (h : c ∉ s) :
    strFind s c = none := by
  induction s with
  | nil => rfl
  | cons x xs ih =>
      have hx : x ≠ c := fun hxc => h (hxc ▸ List.mem_cons_self x xs)
      have hxs : c ∉ xs := fun hm => h (List.mem_cons_of_mem x hm)
      simp [strFind, hx, ih hxs]

theorem strFind_append_cons (pre : tstring) (c : Char) (rest : tstring)
    (h : c ∉ pre) : strFind (pre ++ c :: rest) c = some pre.length := by
  induction pre with
  | nil => simp [strFind]
  | cons x xs ih =>
      have hx : x ≠ c := fun hxc => h (hxc ▸ List.mem_cons_self x xs)
      have hxs : c ∉ xs := fun hm => h (List.mem_cons_of_mem x hm)
      simp [strFind, hx, ih hxs]

/-! ### Claims about the command router -/

/-- C2: a command string with no `:` in it (the empty string included)
makes `RunExtensionCommand` a silent no-op: no script is run, no
condition is raised, no state is changed. -/
theorem runExtensionCommand_no_colon_noop (command : tstring)
    (h : ':' ∉ command) : RunExtensionCommand command = CommandAction.noop := by
  simp [RunExtensionCommand, strFind_eq_none_of_not_mem h]

/-- Witness for C2 at the concrete input `"noColonHere"`. -/
theorem runExtensionCommand_no_colon_noop_witness :
    ':' ∉ ("noColonHere").toList ∧
      RunExtensionCommand (("noColonHere").toList) = CommandAction.noop :=
  ⟨by decide, runExtensionCommand_no_colon_noop (("noColonHere").toList) (by decide)⟩

/-- C3: a command whose text before the first `:` is exactly `"ext"`
(that is, a command of the form `"ext:" ++ rest`) raises the
fatal/unexpected condition `"Not Yet Implemented"`, and in particular no
`Script` is constructed or run. -/
theorem runExtensionCommand_ext_unexpected (rest : tstring) :
    RunExtensionCommand (("ext").toList ++ ':' :: rest)
      = CommandAction.unexpected (("Not Yet Implemented").toList) := by
  have hfind := strFind_append_cons (("ext").toList) ':' rest (by decide)
  simp at hfind
  simp [RunExtensionCommand, hfind]

/-- C4: a command of the form `pre ++ ":" ++ rest` whose runner id `pre`
(the text before the first `:`) is not `"ext"` constructs exactly one
`Script` execution unit, tagged with the full original command string,
and runs it. -/
theorem runExtensionCommand_other_runs_script (pre rest : tstring)
    (hpre : ':' ∉ pre) (hne : pre ≠ ("ext").toList) :
    RunExtensionCommand (pre ++ ':' :: rest)
      = CommandAction.runScript { group := [], commandStr := pre ++ ':' :: rest } := by
  have hfind := strFind_append_cons pre ':' rest hpre
  have htake : (pre ++ ':' :: rest).take pre.length = pre := List.take_left pre _
  have hne' : ¬pre = ['e', 'x', 't'] := by simpa using hne
  simp [RunExtensionCommand, hfind, htake, hne']

/-- Witness for C4 at the concrete input `"foo:bar"`. -/
theorem runExtensionCommand_other_runs_script_witness :
    ':' ∉ ("foo").toList ∧ ("foo").toList ≠ ("ext").toList ∧
      RunExtensionCommand (("foo").toList ++ ':' :: ("bar").toList)
        = CommandAction.runScript
            { group := [], commandStr := ("foo").toList ++ ':' :: ("bar").toList } :=
  ⟨by decide, by decide,
    runExtensionCommand_other_runs_script (("foo").toList) (("bar").toList)
      (by decide) (by decide)⟩

/-! ### Event-sink registry -/

/-- Event sinks are shared pointers (`extensions::IAppEventSinkPtr`)
compared by identity; modelled as opaque identifiers. -/
abbrev Sink := Nat

/-- `App::AddEventSink` (extapp.cpp lines 254-257):
`m_sinks.push_back(sink)`. -/
def AddEventSink (m_sinks : List Sink) (sink : Sink) : List Sink :=
  m_sinks ++ [sink]

/-- `App::RemoveEventSink` (extapp.cpp lines 259-262):
`m_sinks.remove(sink)`. `m_sinks` is a `std::list`, and
`std::list::remove(value)` erases every element equal to `value`. -/
def RemoveEventSink (m_sinks : List Sink) (sink : Sink) : List Sink :=
  m_sinks.filter (fun y => y ≠ sink)

/-- The sink-notification loop (as in `App::unloadExtensions` and
`App::OnNewDocument`): invoke the callback on each sink of `m_sinks`
in order; the returned list is the trace of invocations. -/
def notifySinks (m_sinks : List Sink) : List Sink :=
  m_sinks.foldl (fun invoked s => invoked ++ [s]) []

theorem foldl_snoc_eq_append {α β : Type} (f : α → β) (l : List α) :
    ∀ acc : List β, l.foldl (fun tr x => tr ++ [f x]) acc = acc ++ l.map f := by
  induction l with
  | nil => intro acc; simp
  | cons x xs ih => intro acc; simp [ih]

theorem notifySinks_eq (m_sinks : List Sink) : notifySinks m_sinks = m_sinks := by
  simpa using foldl_snoc_eq_append (fun s : Sink => s) m_sinks []

theorem count_filter_ne_self (l : List Sink) (x : Sink) :
    (l.filter (fun y => y ≠ x)).count x = 0 := by
  rw [List.count_eq_zero]
  intro hmem
  have := (List.mem_filter.mp hmem).2
  simp at this

theorem count_filter_ne_other {x y : Sink} (l : List Sink) (hyx : y ≠ x) :
    (l.filter (fun z => z ≠ x)).count y = l.count y := by
  induction l with
  | nil => rfl
  | cons a as ih =>
      simp only [ne_eq, decide_not] at ih
      by_cases ha : a = x
      · subst ha
        simp [List.filter_cons, List.count_cons, ih, Ne.symm hyx]
      · simp [List.filter_cons, ha, List.count_cons, ih]

/-- C1 counterexample: starting from an empty registry, two
`AddEventSink(S)` calls followed by one `RemoveEventSink(S)` do NOT
leave exactly one registration of S, and the subsequent notification
does NOT invoke S exactly once (it invokes S zero times): the claimed
first-match-only removal fails on the code. -/
theorem removeEventSink_not_first_only :
    ¬ ((RemoveEventSink (AddEventSink (AddEventSink [] 0) 0) 0).count 0 = 1
        ∧ (notifySinks (RemoveEventSink (AddEventSink (AddEventSink [] 0) 0) 0)).count 0
            = 1) := by
  decide

/-- C1 amended: `RemoveEventSink` removes every registration equal to
the sink by identity (`std::list::remove` semantics), leaving the other
sinks' registration counts unchanged; hence after two `AddEventSink(S)`
calls followed by one `RemoveEventSink(S)`, no registration of S
remains and a subsequent notification invokes S zero times. -/
theorem removeEventSink_removes_all (m_sinks : List Sink) (S : Sink) :
    (RemoveEventSink (AddEventSink (AddEventSink m_sinks S) S) S).count S = 0
    ∧ (notifySinks (RemoveEventSink (AddEventSink (AddEventSink m_sinks S) S) S)).count S
        = 0
    ∧ ∀ y : Sink, y ≠ S →
        (RemoveEventSink (AddEventSink (AddEventSink m_sinks S) S) S).count y
          = m_sinks.count y := by
  refine ⟨count_filter_ne_self _ S, ?_, ?_⟩
  · rw [notifySinks_eq]
    exact count_filter_ne_self _ S
  · intro y hy
    unfold RemoveEventSink AddEventSink
    rw [count_filter_ne_other _ hy]
    simp [List.count_append, hy]

/-! ### Extension loading -/

/-- `extensions::Extension`: identified by its load path, with a
validity flag determined at construction (`Extension::Valid()`). -/
structure Extension where
  path : tstring
  valid : Bool
deriving DecidableEq

/-- The `App` state touched by `LoadExtensions`, together with the
observable traces of the external effects: `log` records `LOG(msg)`
calls and `constructed` records `new extensions::Extension(path, this)`
constructor invocations, in order. -/
structure AppState where
  m_bCanLoadExtensions : Bool
  m_exts : List Extension
  log : List tstring
  constructed : List tstring
deriving DecidableEq

/-- The diagnostic message built in the invalid-extension branch. -/
def failMsg (path : tstring) : tstring :=
  ("Failed to load extension: ").toList ++ path

/-- One iteration of the loop of `App::LoadExtensions` (extapp.cpp lines
142-161): skip entries whose first character is `#` or `!`; otherwise
construct an `Extension` (validity given by the environment `validOf`),
keep it in `m_exts` when valid and log a diagnostic when not. -/
def processPath (validOf : tstring → Bool) (st : AppState) (path : tstring) :
    AppState :=
  if strIndex path 0 ≠ '#' ∧ strIndex path 0 ≠ '!' then
    let ext : Extension := { path := path, valid := validOf path }
    let st' : AppState := { st with constructed := st.constructed ++ [path] }
    if ext.valid then
      { st' with m_exts := st'.m_exts ++ [ext] }
    else
      { st' with log := st'.log ++ [failMsg path] }
  else
    st

/-- `App::LoadExtensions` (extapp.cpp lines 134-162): return immediately
when `m_bCanLoadExtensions` is false, else iterate `processPath` over
the configured extension path list. -/
def LoadExtensions (validOf : tstring → Bool) (extensions : List tstring)
    (st : AppState) : AppState :=
  if !st.m_bCanLoadExtensions then
    st
  else
    extensions.foldl (processPath validOf) st

/-- An entry is considered (not skipped) when its first character is
neither `#` nor `!`, as a Bool for use in `List.filter`. -/
def consideredB (path : tstring) : Bool :=
  decide (strIndex path 0 ≠ '#' ∧ strIndex path 0 ≠ '!')

theorem loadFold_spec (validOf : tstring → Bool) (paths : List tstring) :
    ∀ st : AppState,
      (paths.foldl (processPath validOf) st).m_bCanLoadExtensions
          = st.m_bCanLoadExtensions
      ∧ (paths.foldl (processPath validOf) st).constructed
          = st.constructed ++ paths.filter consideredB
      ∧ (paths.foldl (processPath validOf) st).m_exts
          = st.m_exts
            ++ (paths.filter (fun p => consideredB p && validOf p)).map
                 (fun p => { path := p, valid := validOf p })
      ∧ (paths.foldl (processPath validOf) st).log
          = st.log
            ++ (paths.filter (fun p => consideredB p && !validOf p)).map failMsg := by
  induction paths with
  | nil => intro st; simp
  | cons p ps ih =>
      intro st
      obtain ⟨ihFlag, ihCon, ihExts, ihLog⟩ := ih (processPath validOf st p)
      by_cases hc : strIndex p 0 ≠ '#' ∧ strIndex p 0 ≠ '!'
      · have hcb : consideredB p = true := by simp [consideredB, hc.1, hc.2]
        by_cases hv : validOf p = true
        · refine ⟨?_, ?_, ?_, ?_⟩
          · rw [List.foldl_cons, ihFlag]
            simp [processPath, hc.1, hc.2, hv]
          · rw [List.foldl_cons, ihCon]
            simp [processPath, hc.1, hc.2, hv, List.filter_cons, hcb]
          · rw [List.foldl_cons, ihExts]
            simp [processPath, hc.1, hc.2, hv, List.filter_cons, hcb]
          · rw [List.foldl_cons, ihLog]
            simp [processPath, hc.1, hc.2, hv, List.filter_cons, hcb]
        · have hv' : validOf p = false := by
            cases h : validOf p
            · rfl
            · exact absurd h hv
          refine ⟨?_, ?_, ?_, ?_⟩
          · rw [List.foldl_cons, ihFlag]
            simp [processPath, hc.1, hc.2, hv']
          · rw [List.foldl_cons, ihCon]
            simp [processPath, hc.1, hc.2, hv', List.filter_cons, hcb]
          · rw [List.foldl_cons, ihExts]
            simp [processPath, hc.1, hc.2, hv', List.filter_cons, hcb]
          · rw [List.foldl_cons, ihLog]
            simp [processPath, hc.1, hc.2, hv', List.filter_cons, hcb]
      · have hcb : consideredB p = false := by
          simp only [consideredB, decide_eq_false_iff_not]
          exact hc
        refine ⟨?_, ?_, ?_, ?_⟩
        · rw [List.foldl_cons, ihFlag]
          simp [processPath, hc]
        · rw [List.foldl_cons, ihCon]
          simp [processPath, hc, List.filter_cons, hcb]
        · rw [List.foldl_cons, ihExts]
          simp [processPath, hc, List.filter_cons, hcb]
        · rw [List.foldl_cons, ihLog]
          simp [processPath, hc, List.filter_cons, hcb]

/-- `App::SetCanLoadExtensions` (extapp.cpp lines 194-197):
`m_bCanLoadExtensions = canLoad`. -/
def SetCanLoadExtensions (st : AppState) (canLoad : Bool) : AppState :=
  { st with m_bCanLoadExtensions := canLoad }

/-- C5: starting from an empty constructor trace, `LoadExtensions`
constructs an `Extension` exactly for the entries whose first character
is neither `#` nor `!` (so `#`/`!` entries are never instantiated), and
the constructed-and-valid extensions are appended to the owned set
`m_exts` in path-list order. -/
theorem loadExtensions_skip_markers_append_in_order
    (validOf : tstring → Bool) (paths : List tstring) (st : AppState)
    (hcan : st.m_bCanLoadExtensions = true) (hcon : st.constructed = []) :
    (LoadExtensions validOf paths st).constructed
        = paths.filter (fun p => decide (strIndex p 0 ≠ '#' ∧ strIndex p 0 ≠ '!'))
    ∧ (LoadExtensions validOf paths st).m_exts
        = st.m_exts
          ++ (paths.filter (fun p => consideredB p && validOf p)).map
               (fun p => { path := p, valid := validOf p }) := by
  obtain ⟨-, hCon, hExts, -⟩ := loadFold_spec validOf paths st
  rw [LoadExtensions, hcan]
  simp only [Bool.not_true, Bool.false_eq_true, if_false]
  exact ⟨by rw [hCon, hcon]; rfl, hExts⟩

/-- Witness for C5: path list `["#off", "a", "!off", "b"]` with every
construction valid; `#off` and `!off` are skipped, `a` and `b` are
constructed and appended in order. -/
theorem loadExtensions_skip_markers_append_in_order_witness :
    (({ m_bCanLoadExtensions := true, m_exts := [], log := [],
        constructed := [] } : AppState).m_bCanLoadExtensions = true)
    ∧ (LoadExtensions (fun _ => true)
          [("#off").toList, ("a").toList, ("!off").toList, ("b").toList]
          { m_bCanLoadExtensions := true, m_exts := [], log := [],
            constructed := [] }).constructed
        = [("#off").toList, ("a").toList, ("!off").toList,
            ("b").toList].filter
            (fun p => decide (strIndex p 0 ≠ '#' ∧ strIndex p 0 ≠ '!'))
    ∧ (LoadExtensions (fun _ => true)
          [("#off").toList, ("a").toList, ("!off").toList, ("b").toList]
          { m_bCanLoadExtensions := true, m_exts := [], log := [],
            constructed := [] }).m_exts
        = []
          ++ ([("#off").toList, ("a").toList, ("!off").toList,
                ("b").toList].filter
                (fun p => consideredB p && (fun _ : tstring => true) p)).map
              (fun p => { path := p, valid := (fun _ : tstring => true) p }) :=
  ⟨rfl,
    (loadExtensions_skip_markers_append_in_order (fun _ => true)
        [("#off").toList, ("a").toList, ("!off").toList, ("b").toList]
        { m_bCanLoadExtensions := true, m_exts := [], log := [],
          constructed := [] } rfl rfl).1,
    (loadExtensions_skip_markers_append_in_order (fun _ => true)
        [("#off").toList, ("a").toList, ("!off").toList, ("b").toList]
        { m_bCanLoadExtensions := true, m_exts := [], log := [],
          constructed := [] } rfl rfl).2⟩

/-- C6: on a fresh state, a path list of the form `xs ++ bad :: ys`,
where every entry of `xs` and `ys` is considered and constructs a valid
extension and `bad` is considered but constructs an invalid one, leaves
exactly `|xs| + |ys|` extensions in the owned set, produces exactly one
diagnostic log entry, and still processes every entry — including all
of `ys` after the failure. -/
theorem loadExtensions_one_invalid_among_valid
    (validOf : tstring → Bool) (xs ys : List tstring) (bad : tstring)
    (st : AppState)
    (hcan : st.m_bCanLoadExtensions = true)
    (hexts : st.m_exts = []) (hlog : st.log = []) (hcon : st.constructed = [])
    (hgood : ∀ p ∈ xs ++ ys, consideredB p = true ∧ validOf p = true)
    (hbadC : consideredB bad = true) (hbadV : validOf bad = false) :
    (LoadExtensions validOf (xs ++ bad :: ys) st).m_exts.length
        = xs.length + ys.length
    ∧ (LoadExtensions validOf (xs ++ bad :: ys) st).log.length = 1
    ∧ (LoadExtensions validOf (xs ++ bad :: ys) st).constructed
        = xs ++ bad :: ys := by
  obtain ⟨-, hCon, hExts, hLog⟩ := loadFold_spec validOf (xs ++ bad :: ys) st
  rw [LoadExtensions, hcan]
  simp only [Bool.not_true, Bool.false_eq_true, if_false]
  have hxs_q : (xs.filter (fun p => consideredB p && validOf p)) = xs :=
    List.filter_eq_self.mpr fun p hp => by
      simp [(hgood p (List.mem_append_left ys hp)).1,
        (hgood p (List.mem_append_left ys hp)).2]
  have hys_q : (ys.filter (fun p => consideredB p && validOf p)) = ys :=
    List.filter_eq_self.mpr fun p hp => by
      simp [(hgood p (List.mem_append_right xs hp)).1,
        (hgood p (List.mem_append_right xs hp)).2]
  have hxs_l : (xs.filter (fun p => consideredB p && !validOf p)) = [] :=
    List.filter_eq_nil_iff.mpr fun p hp => by
      simp [(hgood p (List.mem_append_left ys hp)).2]
  have hys_l : (ys.filter (fun p => consideredB p && !validOf p)) = [] :=
    List.filter_eq_nil_iff.mpr fun p hp => by
      simp [(hgood p (List.mem_append_right xs hp)).2]
  have hxs_c : (xs.filter consideredB) = xs :=
    List.filter_eq_self.mpr fun p hp =>
      (hgood p (List.mem_append_left ys hp)).1
  have hys_c : (ys.filter consideredB) = ys :=
    List.filter_eq_self.mpr fun p hp =>
      (hgood p (List.mem_append_right xs hp)).1
  refine ⟨?_, ?_, ?_⟩
  · rw [hExts, hexts]
    simp [List.filter_append, List.filter_cons, hxs_q, hys_q, hbadC, hbadV]
  · rw [hLog, hlog]
    simp [List.filter_append, List.filter_cons, hxs_l, hys_l, hbadC, hbadV]
  · rw [hCon, hcon]
    simp [List.filter_append, List.filter_cons, hxs_c, hys_c, hbadC]

/-- Witness for C6: `xs = ["a"]`, `bad = "bad"`, `ys = ["b"]`, validity
given by `p ≠ "bad"`: two extensions retained, one log entry, all three
entries processed. -/
theorem loadExtensions_one_invalid_among_valid_witness :
    (LoadExtensions (fun p => decide (p ≠ ("bad").toList))
        ([("a").toList] ++ ("bad").toList :: [("b").toList])
        { m_bCanLoadExtensions := true, m_exts := [], log := [],
          constructed := [] }).m_exts.length
      = [("a").toList].length + [("b").toList].length
    ∧ (LoadExtensions (fun p => decide (p ≠ ("bad").toList))
        ([("a").toList] ++ ("bad").toList :: [("b").toList])
        { m_bCanLoadExtensions := true, m_exts := [], log := [],
          constructed := [] }).log.length = 1
    ∧ (LoadExtensions (fun p => decide (p ≠ ("bad").toList))
        ([("a").toList] ++ ("bad").toList :: [("b").toList])
        { m_bCanLoadExtensions := true, m_exts := [], log := [],
          constructed := [] }).constructed
      = [("a").toList] ++ ("bad").toList :: [("b").toList] :=
  loadExtensions_one_invalid_among_valid (fun p => decide (p ≠ ("bad").toList))
    [("a").toList] [("b").toList] (("bad").toList)
    { m_bCanLoadExtensions := true, m_exts := [], log := [], constructed := [] }
    rfl rfl rfl rfl (by decide) (by decide) (by decide)

/-- C7: when the extensions-permitted flag has been turned off via
`SetCanLoadExtensions(false)`, `LoadExtensions` is a complete no-op: it
returns before examining any path — no `Extension` is constructed, no
log entry is produced, and the whole state (including the owned set
`m_exts`) is unchanged. -/
theorem loadExtensions_noop_when_not_permitted
    (validOf : tstring → Bool) (paths : List tstring) (st : AppState) :
    LoadExtensions validOf paths (SetCanLoadExtensions st false)
      = SetCanLoadExtensions st false := by
  simp [LoadExtensions, SetCanLoadExtensions]

/-- C10: `LoadExtensions` reads index 0 of each considered entry without
an emptiness check: for a non-empty entry this read is the in-bounds
head character, and the empty entry is NOT treated as disabled — its
index-0 read yields the null character, which is neither `#` nor `!`,
so an extension construction is attempted for it (it appears in the
constructor trace). -/
theorem loadExtensions_empty_entry_constructed
    (validOf : tstring → Bool) (paths : List tstring) (st : AppState)
    (hcan : st.m_bCanLoadExtensions = true) (hmem : [] ∈ paths) :
    (∀ (p : tstring) (hp : p ≠ []), strIndex p 0 = p.head hp)
    ∧ [] ∈ (LoadExtensions validOf paths st).constructed := by
  obtain ⟨-, hCon, -, -⟩ := loadFold_spec validOf paths st
  refine ⟨?_, ?_⟩
  · intro p hp
    cases p with
    | nil => exact absurd rfl hp
    | cons c cs => rfl
  · rw [LoadExtensions, hcan]
    simp only [Bool.not_true, Bool.false_eq_true, if_false]
    rw [hCon]
    refine List.mem_append_right _ (List.mem_filter.mpr ⟨hmem, ?_⟩)
    decide

/-- Witness for C10: path list `[""]` on a fresh state — the empty entry
is passed to the `Extension` constructor. -/
theorem loadExtensions_empty_entry_constructed_witness :
    (({ m_bCanLoadExtensions := true, m_exts := [], log := [],
        constructed := [] } : AppState).m_bCanLoadExtensions = true)
    ∧ ([] ∈ ([[]] : List tstring))
    ∧ [] ∈ (LoadExtensions (fun _ => true) [[]]
        { m_bCanLoadExtensions := true, m_exts := [], log := [],
          constructed := [] }).constructed :=
  ⟨rfl, List.mem_singleton.mpr rfl,
    (loadExtensions_empty_entry_constructed (fun _ => true) [[]]
        { m_bCanLoadExtensions := true, m_exts := [], log := [],
          constructed := [] } rfl (List.mem_singleton.mpr rfl)).2⟩

/-! ### ClearUserData -/

/-- Settings namespaces passed to `OPTIONS->Clear`; only
`PNSK_INTERFACE` is used by the embedded code. -/
inductive SettingsKey where
  | PNSK_INTERFACE : SettingsKey
deriving DecidableEq

/-- Observable operations performed by `App::ClearUserData` and
`App::ensureUserSettingsDir` on their external collaborators. -/
inductive UserDataOp where
  /-- `DeleteDirectory(userSettingsDir, true)` was called. -/
  | deleteDirectory (recurse : Bool) : UserDataOp
  /-- `UNEXPECTED`/`RETURN_UNEXPECTED` raised the given message. -/
  | raiseUnexpected (msg : tstring) : UserDataOp
  /-- `OPTIONS->Clear(key)` was called. -/
  | clearSettings (key : SettingsKey) : UserDataOp
  /-- `CreateDirectoryRecursive(userSettingsDir)` was called. -/
  | createDirectoryRecursive : UserDataOp
deriving DecidableEq

/-- `App::ensureUserSettingsDir` (extapp.cpp lines 122-129): create the
user-settings directory recursively; when the creation fails
(environment flag `createOk = false`), raise `UNEXPECTED`. Returns the
trace of operations. -/
def ensureUserSettingsDir (createOk : Bool) : List UserDataOp :=
  if createOk then
    [UserDataOp.createDirectoryRecursive]
  else
    [UserDataOp.createDirectoryRecursive,
      UserDataOp.raiseUnexpected (("Could not create user settings folder").toList)]

/-- `App::ClearUserData` (extapp.cpp lines 207-225): delete the
user-settings directory recursively; on failure (`deleteOk = false`)
raise `RETURN_UNEXPECTED` and return false; on success clear the
`PNSK_INTERFACE` settings namespace, re-create the directory and return
true. Returns the boolean result and the trace of operations. -/
def ClearUserData (deleteOk : Bool) (createOk : Bool) : Bool × List UserDataOp :=
  if !deleteOk then
    (false,
      [UserDataOp.deleteDirectory true,
        UserDataOp.raiseUnexpected
          (("Failed to delete user settings directory!").toList)])
  else
    (true,
      [UserDataOp.deleteDirectory true,
        UserDataOp.clearSettings SettingsKey.PNSK_INTERFACE]
        ++ ensureUserSettingsDir createOk)

/-- C8: if deleting the user-settings directory fails, `ClearUserData`
returns false having performed nothing but the failed deletion and the
unexpected-condition report — in particular `PNSK_INTERFACE` is not
cleared and the directory is not re-created; if the deletion succeeds,
it clears `PNSK_INTERFACE`, re-creates the user-settings directory and
returns true. -/
theorem clearUserData_failure_noop_success_clears (createOk : Bool) :
    ((ClearUserData false createOk).1 = false
      ∧ (ClearUserData false createOk).2
          = [UserDataOp.deleteDirectory true,
              UserDataOp.raiseUnexpected
                (("Failed to delete user settings directory!").toList)])
    ∧ ((ClearUserData true createOk).1 = true
      ∧ (ClearUserData true createOk).2
          = [UserDataOp.deleteDirectory true,
              UserDataOp.clearSettings SettingsKey.PNSK_INTERFACE]
            ++ ensureUserSettingsDir createOk
      ∧ UserDataOp.clearSettings SettingsKey.PNSK_INTERFACE
          ∈ (ClearUserData true createOk).2
      ∧ UserDataOp.createDirectoryRecursive ∈ (ClearUserData true createOk).2) := by
  cases createOk <;> exact ⟨⟨rfl, rfl⟩, rfl, rfl, by decide, by decide⟩

/-! ### Shutdown ordering -/

/-- Observable steps taken during `App::deinit`, in order. -/
inductive ShutdownEvent where
  /-- `(*i)->OnAppClose()` on a registered sink. -/
  | onAppClose (sink : Sink) : ShutdownEvent
  /-- `(*i)->Unload()` on an owned extension. -/
  | unloadExt (e : Extension) : ShutdownEvent
  /-- `delete m_settings`. -/
  | releaseSettings : ShutdownEvent
  /-- `DeletionManager::DeleteAll()`. -/
  | deletionManagerSweep : ShutdownEvent
  /-- `OptionsFactory::Release(g_Context.options)`. -/
  | releaseOptions : ShutdownEvent
  /-- `delete m_dispatch`. -/
  | releaseDispatch : ShutdownEvent
deriving DecidableEq

/-- `App::unloadExtensions` (extapp.cpp lines 230-242): signal
`OnAppClose` to every sink of `m_sinks` in order, then `Unload` every
extension of `m_exts` in order, then `m_exts.clear()`. Returns the
event trace and the final `m_exts`. -/
def unloadExtensions (m_sinks : List Sink) (m_exts : List Extension) :
    List ShutdownEvent × List Extension :=
  let tr := m_sinks.foldl (fun tr s => tr ++ [ShutdownEvent.onAppClose s]) []
  let tr := m_exts.foldl (fun tr e => tr ++ [ShutdownEvent.unloadExt e]) tr
  (tr, [])

/-- `App::deinit` (extapp.cpp lines 104-117): `unloadExtensions()`, then
`delete m_settings`, then `DeletionManager::DeleteAll()`, then
`OptionsFactory::Release(g_Context.options)`, then `delete m_dispatch`.
Returns the event trace and the final `m_exts`. -/
def deinit (m_sinks : List Sink) (m_exts : List Extension) :
    List ShutdownEvent × List Extension :=
  let r := unloadExtensions m_sinks m_exts
  (r.1
      ++ [ShutdownEvent.releaseSettings, ShutdownEvent.deletionManagerSweep,
            ShutdownEvent.releaseOptions, ShutdownEvent.releaseDispatch],
    r.2)

/-- C9: shutdown performs, in this fixed order: `OnAppClose` to every
registered sink in registration order, then `Unload` to every owned
extension in load order (after which the owned set is cleared), then
settings release, then the global deletion-manager sweep, then the
release of the shared options object, then the release of the
command-dispatch service. -/
theorem deinit_order (m_sinks : List Sink) (m_exts : List Extension) :
    deinit m_sinks m_exts
      = (m_sinks.map ShutdownEvent.onAppClose
          ++ m_exts.map ShutdownEvent.unloadExt
          ++ [ShutdownEvent.releaseSettings, ShutdownEvent.deletionManagerSweep,
                ShutdownEvent.releaseOptions, ShutdownEvent.releaseDispatch],
        []) := by
  have h1 := foldl_snoc_eq_append ShutdownEvent.onAppClose m_sinks []
  have h2 := foldl_snoc_eq_append ShutdownEvent.unloadExt m_exts
    (m_sinks.map ShutdownEvent.onAppClose)
  simp only [List.nil_append] at h1
  simp [deinit, unloadExtensions, h1, h2]

end PN
